import Mathlib

/-!
# Memory alignment (`MemoryAlignment/MemoryAlignment/main.cpp`)

A shallow embedding of the demonstration program `main`: the pointer
arithmetic that derives the 16-byte aligned pointer `array3` from the block
returned by `malloc`, and the sequence of allocator calls, stores and vector
loads a run of `main` issues, which ends at the first access that faults.

Addresses are natural numbers below `2 ^ w`, where `w` is the width in bits of
`uintptr_t` (32 or 64 on the targets of the program; the development keeps `w`
arbitrary).  Unsigned arithmetic is arithmetic modulo `2 ^ w`.
-/

namespace MemoryAlignment

/-! ## Machine arithmetic -/

/-- Conversion of an `int` value to the unsigned `w`-bit type `uintptr_t`:
the value is reduced modulo `2 ^ w` (for a negative `int` this is sign
extension followed by reinterpretation). -/
def toUintptr (w : Nat) (i : Int) : Nat := (i % (2 : Int) ^ w).toNat

/-- Addition of two `uintptr_t` values: modulo `2 ^ w`. -/
def addUintptr (w x y : Nat) : Nat := (x + y) % 2 ^ w

/-- Subtraction of two `uintptr_t` values: modulo `2 ^ w`. -/
def subUintptr (w x y : Nat) : Nat := (x + (2 ^ w - y % 2 ^ w)) % 2 ^ w

/-- The value of `sizeof(float)` on the targets of the program. -/
def sizeofFloat : Nat := 4

/-- The size passed to `malloc` at main.cpp:62, `sizeof(float) * 4 + 15`. -/
def rawBlockSize : Nat := sizeofFloat * 4 + 15

/-! ## The aligned pointer of main.cpp:71 -/

/-- The expression `(tempPointer + 15) & (~15)` of main.cpp:71.  Both
literals are `int`s: `15` is converted to `uintptr_t` for the addition, and
`~15` is computed on `int` (giving `-16`) and then converted to `uintptr_t`
for the bitwise and. -/
def array3 (w tempPointer : Nat) : Nat :=
  addUintptr w tempPointer (toUintptr w 15) &&& toUintptr w (~~~ (15 : Int))

/-- Byte address of the element `p[i]` of a `float*` whose value is `p`. -/
def floatElem (p i : Nat) : Nat := p + sizeofFloat * i

/-! ## The statements of `main` -/

/-- The operations `main` performs that are visible outside it. -/
inductive Event where
  /-- A call `_aligned_malloc(size, align)` that returned `result`. -/
  | alignedMalloc (size align result : Nat)
  /-- A call `malloc(size)` that returned `result`. -/
  | malloc (size result : Nat)
  /-- A call `_aligned_free(addr)`. -/
  | alignedFree (addr : Nat)
  /-- A call `free(addr)`. -/
  | free (addr : Nat)
  /-- A store of one `float` (four bytes) at byte address `addr`. -/
  | storeFloat (addr : Nat)
  /-- A call `_mm_load_ps(addr)`. -/
  | loadPs (addr : Nat)
  deriving DecidableEq, Repr

/-- What `main` receives from its environment: the width of `uintptr_t`, the
address the compiler gives the stack array `array1`, and the values returned
by the three allocation calls in program order (`0` is the null pointer). -/
structure Env where
  /-- Width of `uintptr_t` in bits. -/
  w : Nat
  /-- Address of `array1` (main.cpp:40). -/
  array1 : Nat
  /-- Value returned by `_aligned_malloc` at main.cpp:48. -/
  array2 : Nat
  /-- Value returned by `malloc` at main.cpp:62. -/
  tempPointer : Nat
  /-- Value returned by `malloc` at main.cpp:90. -/
  array4 : Nat
  deriving DecidableEq, Repr

/-- The four stores `p[0] = 0; p[1] = 0; p[2] = 0; p[3] = 0;`. -/
def storeFour (p : Nat) : List Event :=
  [Event.storeFloat (floatElem p 0), Event.storeFloat (floatElem p 1),
   Event.storeFloat (floatElem p 2), Event.storeFloat (floatElem p 3)]

/-- The statements of lines 62–75 of main.cpp in program order: the call to
`malloc`, whose result is used without a test, and the four stores through
`array3`.  Which of them a run performs is decided by `execute`. -/
def manualSection (w tempPointer : Nat) : List Event :=
  Event.malloc rawBlockSize tempPointer :: storeFour (array3 w tempPointer)

/-- The statements of `main` in program order (main.cpp:40–95).  Which of them
a run performs is decided by `execute`. -/
def mainStatements (e : Env) : List Event :=
  storeFour e.array1
  ++ Event.alignedMalloc (sizeofFloat * 4) 16 e.array2 :: storeFour e.array2
  ++ manualSection e.w e.tempPointer
  ++ [Event.loadPs e.array1, Event.loadPs e.array2,
      Event.loadPs (array3 e.w e.tempPointer)]
  ++ Event.malloc (sizeofFloat * 4) e.array4 :: storeFour e.array4
  ++ [Event.loadPs e.array4]

/-- The operations that end the run: a store or a vector load through the
null address, and `_mm_load_ps` on an address that is not a multiple of 16
(main.cpp:89, "These crash if they're not aligned"). -/
def faults : Event → Bool
  | Event.storeFloat a => decide (a = 0)
  | Event.loadPs a => decide (a = 0) || decide (a % 16 ≠ 0)
  | _ => false

/-- Sequential execution of a list of statements: the operations issued, up
to and including the first one that faults, and whether the run ended on a
fault. -/
def execute : List Event → List Event × Bool
  | [] => ([], false)
  | ev :: rest =>
    if faults ev then ([ev], true)
    else ((ev :: (execute rest).1), (execute rest).2)

/-- The operations a run of lines 62–75 issues when `malloc` returns
`tempPointer`. -/
def manualRun (w tempPointer : Nat) : List Event :=
  (execute (manualSection w tempPointer)).1

/-- The operations a run of `main` issues. -/
def mainTrace (e : Env) : List Event := (execute (mainStatements e)).1

/-- The value `main` returns (main.cpp:100), or `none` when the run ends on a
fault and `main` does not return. -/
def mainResult (e : Env) : Option Int :=
  if (execute (mainStatements e)).2 then none else some 1

/-- The run of `main` on a 64-bit word in which `_aligned_malloc` returns
`0x2000`, the `malloc` of line 62 returns the null address and `array1` is at
`0x7000`. -/
def nullEnv : Env := ⟨64, 0x7000, 0x2000, 0, 0x3000⟩

/-- The run of `main` on a 64-bit word in which the three allocations return
the blocks at `0x2000`, `0x1003` and `0x3000`. -/
def leakEnv : Env := ⟨64, 0x7000, 0x2000, 0x1003, 0x3000⟩

/-! ## Allocation tracking -/

/-- Number of allocation calls in a trace that returned a block, as an
allocation-tracking allocator counts them (a null result is a failed call). -/
def allocCount : List Event → Nat
  | [] => 0
  | Event.alignedMalloc _ _ r :: t => (if r = 0 then 0 else 1) + allocCount t
  | Event.malloc _ r :: t => (if r = 0 then 0 else 1) + allocCount t
  | _ :: t => allocCount t

/-- Number of deallocation calls (`free` or `_aligned_free`) in a trace. -/
def freeCount : List Event → Nat
  | [] => 0
  | Event.alignedFree _ :: t => 1 + freeCount t
  | Event.free _ :: t => 1 + freeCount t
  | _ :: t => freeCount t

/-- Every block a trace allocates is passed exactly once, by its raw base
address, to the deallocation routine matching its allocation routine. -/
def ReleasedExactlyOnce (t : List Event) : Prop :=
  (∀ size align r, Event.alignedMalloc size align r ∈ t → r ≠ 0 →
      t.count (Event.alignedFree r) = 1) ∧
  (∀ size r, Event.malloc size r ∈ t → r ≠ 0 → t.count (Event.free r) = 1)

/-! ## The technique for an arbitrary alignment -/

/-- Modelled from the spec: the formula of step 2 of `construct`,
`(rawBase + alignment - 1) & ~(alignment - 1)`, for a caller-chosen alignment.
The program has only the instance `alignment = 16` (`array3`); the general
formula is not in the source.  The operands are computed as integers and
converted to `uintptr_t`, as for the literals of main.cpp:71. -/
def alignedPointer (w alignment rawBase : Nat) : Nat :=
  toUintptr w ((rawBase : Int) + (alignment : Int) - 1) &&&
    toUintptr w (~~~ ((alignment : Int) - 1))

/-- Modelled from the spec: the errors of `construct` in the reference
design (section 7), which has no validation of the alignment. -/
inductive ConstructError where
  /-- The underlying allocator could not satisfy the request. -/
  | AllocationFailure
  deriving DecidableEq, Repr

/-- Modelled from the spec: the entity `AlignedBuffer` of section 3. -/
structure AlignedBuffer where
  /-- Address returned by the underlying allocation call. -/
  rawBase : Nat
  /-- Derived aligned address. -/
  alignedPointer : Nat
  /-- Bytes usable at `alignedPointer`. -/
  requestedSize : Nat
  /-- Boundary in bytes. -/
  alignment : Nat
  deriving DecidableEq, Repr

/-- Modelled from the spec: the operation `construct` of section 4.1 in the
reference design, over the capability `rawAllocate(sizeInBytes)` of section 6
(`none` is failure).  The source has no such function; `main` performs the
steps inline for `requestedSize = 16`, `alignment = 16`. -/
def construct (w : Nat) (rawAllocate : Nat → Option Nat) (requestedSize alignment : Nat) :
    Except ConstructError AlignedBuffer :=
  match rawAllocate (requestedSize + alignment - 1) with
  | none => Except.error ConstructError.AllocationFailure
  | some rawBase =>
    Except.ok
      { rawBase := rawBase
        alignedPointer := alignedPointer w alignment rawBase
        requestedSize := requestedSize
        alignment := alignment }

/-- Modelled from the spec: the operation `access` of section 4.1. -/
def access (b : AlignedBuffer) : Nat := b.alignedPointer

/-! ## Bit-level facts -/

theorem toUintptr_not (w m : Nat) (hm : m < 2 ^ w) :
    toUintptr w (~~~ (m : Int)) = 2 ^ w - (m + 1) := by
  unfold toUintptr
  have h1 : (~~~ (m : Int)) = -(m : Int) - 1 := by
    show Int.negSucc m = _
    rw [Int.negSucc_eq]
    ring
  have h2 : (-(m : Int) - 1) % (2 : Int) ^ w = ((2 ^ w - (m + 1) : Nat) : Int) := by
    have hp : ((2 : Int) ^ w) = ((2 ^ w : Nat) : Int) := by push_cast; rfl
    rw [hp]
    have : (-(m : Int) - 1) = ((2 ^ w - (m + 1) : Nat) : Int) + (-1) * ((2 ^ w : Nat) : Int) := by
      rw [Nat.cast_sub (by omega)]
      push_cast
      ring
    rw [this, Int.add_mul_emod_self]
    apply Int.emod_eq_of_lt
    · exact Int.ofNat_nonneg _
    · exact_mod_cast (by omega : 2 ^ w - (m + 1) < 2 ^ w)
  rw [h1, h2]
  simp

theorem toUintptr_natCast (w n : Nat) : toUintptr w (n : Int) = n % 2 ^ w := by
  unfold toUintptr
  have hp : ((2 : Int) ^ w) = ((2 ^ w : Nat) : Int) := by push_cast; rfl
  rw [hp, ← Int.natCast_mod]
  exact Int.toNat_ofNat _

theorem toUintptr_not_pow (w k : Nat) :
    toUintptr w (~~~ (((2 ^ k : Nat) : Int) - 1)) = 2 ^ w - 2 ^ k := by
  have hk : 0 < 2 ^ k := Nat.two_pow_pos k
  have hc : (((2 ^ k : Nat) : Int) - 1) = ((2 ^ k - 1 : Nat) : Int) := by
    rw [Nat.cast_sub hk]; simp
  rw [hc]
  by_cases h : k ≤ w
  · have hle : 2 ^ k ≤ 2 ^ w := Nat.pow_le_pow_right (by decide) h
    rw [toUintptr_not w (2 ^ k - 1) (by omega)]
    omega
  · have hlt : w < k := Nat.lt_of_not_le h
    have hle : 2 ^ w ≤ 2 ^ k := Nat.pow_le_pow_right (by decide) hlt.le
    have hd : (2 : Int) ^ w ∣ (2 : Int) ^ k := pow_dvd_pow 2 hlt.le
    have h1 : (~~~ ((2 ^ k - 1 : Nat) : Int)) = -((2 : Int) ^ k) := by
      show Int.negSucc (2 ^ k - 1) = _
      rw [Int.negSucc_eq, Nat.cast_sub hk]
      push_cast
      ring
    unfold toUintptr
    rw [h1, Int.emod_eq_zero_of_dvd ((Int.dvd_neg).mpr hd)]
    simp
    omega

/-- Masking a word with `2 ^ w - 2 ^ k` clears its `k` low bits. -/
theorem and_two_pow_sub_two_pow (w k x : Nat) (hx : x < 2 ^ w) :
    x &&& (2 ^ w - 2 ^ k) = 2 ^ k * (x / 2 ^ k) := by
  by_cases h : k ≤ w
  · have hle : 2 ^ k ≤ 2 ^ w := Nat.pow_le_pow_right (by decide) h
    have hk : 0 < 2 ^ k := Nat.two_pow_pos k
    have hm : 2 ^ w - 2 ^ k = 2 ^ w - ((2 ^ k - 1) + 1) := by omega
    apply Nat.eq_of_testBit_eq
    intro i
    rw [Nat.testBit_and, hm, Nat.testBit_two_pow_sub_succ (by omega), Nat.testBit_two_pow_sub_one,
      Nat.testBit_mul_pow_two, ← Nat.shiftRight_eq_div_pow, Nat.testBit_shiftRight]
    by_cases hik : i < k
    · have : ¬ (i ≥ k) := by omega
      simp [hik, this]
    · have hge : i ≥ k := by omega
      have hadd : k + (i - k) = i := by omega
      by_cases hiw : i < w
      · simp [hik, hge, hiw, hadd]
      · have hxi : x < 2 ^ i := lt_of_lt_of_le hx (Nat.pow_le_pow_right (by decide) (by omega))
        simp [hik, hge, hiw, hadd, Nat.testBit_lt_two_pow hxi]
  · have hlt : w < k := Nat.lt_of_not_le h
    have hle : 2 ^ w ≤ 2 ^ k := Nat.pow_le_pow_right (by decide) hlt.le
    have h0 : 2 ^ w - 2 ^ k = 0 := by omega
    rw [h0, Nat.div_eq_of_lt (by omega)]
    simp

/-- The value of `array3` in terms of division: the wrapped sum
`(tempPointer + 15) mod 2 ^ w` truncated to a multiple of 16. -/
theorem array3_eq (w r : Nat) : array3 w r = 16 * (((r + 15) % 2 ^ w) / 16) := by
  have hm : toUintptr w (~~~ (15 : Int)) = 2 ^ w - 2 ^ 4 := by
    have := toUintptr_not_pow w 4
    simpa using this
  have ha : addUintptr w r (toUintptr w 15) = (r + 15) % 2 ^ w := by
    have := toUintptr_natCast w 15
    unfold addUintptr
    simp only [Nat.cast_ofNat] at this
    rw [this, Nat.add_mod_mod]
  unfold array3
  rw [hm, ha, and_two_pow_sub_two_pow w 4 _ (Nat.mod_lt _ (Nat.two_pow_pos w))]
  norm_num

theorem sixteen_mul_of_four_le (w : Nat) (hw : 4 ≤ w) : ∃ j, 2 ^ w = 16 * j ∧ 0 < j := by
  refine ⟨2 ^ (w - 4), ?_, Nat.two_pow_pos _⟩
  have : w = 4 + (w - 4) := by omega
  conv_lhs => rw [this, Nat.pow_add]

theorem array3_of_no_wrap (w r : Nat) (h : r + 15 < 2 ^ w) :
    array3 w r = 16 * ((r + 15) / 16) := by
  rw [array3_eq, Nat.mod_eq_of_lt h]

theorem array3_of_wrap (w r : Nat) (hw : 4 ≤ w) (hr : r < 2 ^ w) (h : 2 ^ w ≤ r + 15) :
    array3 w r = 0 := by
  obtain ⟨j, hj, _⟩ := sixteen_mul_of_four_le w hw
  have hmod : (r + 15) % 2 ^ w = r + 15 - 2 ^ w := by
    rw [Nat.mod_eq_sub_mod h, Nat.mod_eq_of_lt (by omega)]
  rw [array3_eq, hmod]
  omega

theorem array3_small_width (w r : Nat) (hw : w < 4) : array3 w r = 0 := by
  have hlt : (r + 15) % 2 ^ w < 2 ^ w := Nat.mod_lt _ (Nat.two_pow_pos w)
  have hle : 2 ^ w ≤ 2 ^ 3 := Nat.pow_le_pow_right (by decide) (by omega)
  rw [array3_eq]
  omega

theorem array3_lt (w r : Nat) : array3 w r < 2 ^ w ∨ array3 w r = 0 := by
  have hlt : (r + 15) % 2 ^ w < 2 ^ w := Nat.mod_lt _ (Nat.two_pow_pos w)
  rw [array3_eq]
  omega

theorem array3_mod_sixteen (w r : Nat) : array3 w r % 16 = 0 := by
  rw [array3_eq]
  omega

/-- Masking a word with the complement of `m` removes from it the bits it
shares with `m`. -/
theorem and_two_pow_sub_succ (w x m : Nat) (hx : x < 2 ^ w) (hm : m < 2 ^ w) :
    x &&& (2 ^ w - (m + 1)) = x ^^^ (x &&& m) := by
  apply Nat.eq_of_testBit_eq
  intro i
  rw [Nat.testBit_and, Nat.testBit_xor, Nat.testBit_and, Nat.testBit_two_pow_sub_succ hm]
  by_cases hiw : i < w
  · cases x.testBit i <;> cases m.testBit i <;> simp [hiw]
  · have hxi : x < 2 ^ i := lt_of_lt_of_le hx (Nat.pow_le_pow_right (by decide) (by omega))
    simp [hiw, Nat.testBit_lt_two_pow hxi]

theorem toUintptr_sum (w r a : Nat) (ha : 0 < a) :
    toUintptr w ((r : Int) + (a : Int) - 1) = (r + (a - 1)) % 2 ^ w := by
  have hc : (r : Int) + (a : Int) - 1 = ((r + (a - 1) : Nat) : Int) := by
    push_cast [Nat.cast_sub ha]
    ring
  rw [hc, toUintptr_natCast]

/-- The general formula for a power-of-two alignment, in terms of division. -/
theorem alignedPointer_two_pow (w k r : Nat) :
    alignedPointer w (2 ^ k) r = 2 ^ k * (((r + (2 ^ k - 1)) % 2 ^ w) / 2 ^ k) := by
  unfold alignedPointer
  rw [toUintptr_sum w r (2 ^ k) (Nat.two_pow_pos k), toUintptr_not_pow,
    and_two_pow_sub_two_pow w k _ (Nat.mod_lt _ (Nat.two_pow_pos w))]

/-- The general formula for an alignment that need not be a power of two, on
operands that fit the word. -/
theorem alignedPointer_of_lt (w a r : Nat) (ha : 0 < a) (h : r + (a - 1) < 2 ^ w) :
    alignedPointer w a r = (r + (a - 1)) ^^^ ((r + (a - 1)) &&& (a - 1)) := by
  have hc : ((a : Int) - 1) = ((a - 1 : Nat) : Int) := by
    rw [Nat.cast_sub ha]; simp
  unfold alignedPointer
  rw [toUintptr_sum w r a ha, hc, toUintptr_not w (a - 1) (by omega), Nat.mod_eq_of_lt h,
    and_two_pow_sub_succ w _ _ h (by omega)]

/-- The expression of main.cpp:71 is the general formula at alignment 16. -/
theorem array3_eq_alignedPointer (w r : Nat) : array3 w r = alignedPointer w 16 r := by
  have h := alignedPointer_two_pow w 4 r
  norm_num at h
  rw [h, array3_eq]

theorem construct_of_some (w s a r : Nat) (rawAllocate : Nat → Option Nat)
    (hr : rawAllocate (s + a - 1) = some r) :
    construct w rawAllocate s a =
      Except.ok ⟨r, alignedPointer w a r, s, a⟩ := by
  unfold construct
  rw [hr]

/-! ## The claims about `array3` -/

/-- C1: for every base address `rawBase`, the pointer `array3` computed as
`(tempPointer + 15) & ~15` with the addition taken modulo `2 ^ w` is an exact
multiple of 16. -/
theorem C1_array3_multiple_of_16 (w rawBase : Nat) : array3 w rawBase % 16 = 0 :=
  array3_mod_sixteen w rawBase

theorem ceil_div_sixteen (r : Nat) : ⌈(r : ℚ) / 16⌉₊ = (r + 15) / 16 := by
  apply le_antisymm
  · rw [Nat.ceil_le, div_le_iff₀ (by norm_num)]
    have h : r ≤ (r + 15) / 16 * 16 := by omega
    exact_mod_cast h
  · have h := Nat.le_ceil ((r : ℚ) / 16)
    rw [div_le_iff₀ (by norm_num)] at h
    have h2 : r ≤ ⌈(r : ℚ) / 16⌉₊ * 16 := by exact_mod_cast h
    omega

/-- C2: when `rawBase + 15` does not exceed the word, `array3` is
`16 * ceil(rawBase / 16)`: a multiple of 16, at least `rawBase`, and below
every other multiple of 16 that is at least `rawBase`; the mask `~15` acts on
the full width.  For `rawBase = 0x1003` the result is `0x1010`, slack 13. -/
theorem C2_array3_least_multiple (w rawBase : Nat) (h : rawBase + 15 < 2 ^ w) :
    array3 w rawBase = 16 * ⌈(rawBase : ℚ) / 16⌉₊ ∧
    16 ∣ array3 w rawBase ∧
    rawBase ≤ array3 w rawBase ∧
    (∀ m, 16 ∣ m → rawBase ≤ m → array3 w rawBase ≤ m) ∧
    toUintptr w (~~~ (15 : Int)) = 2 ^ w - 16 ∧
    (rawBase = 0x1003 → array3 w rawBase = 0x1010 ∧ array3 w rawBase - rawBase = 13) := by
  have e := array3_of_no_wrap w rawBase h
  have hm : toUintptr w (~~~ (15 : Int)) = 2 ^ w - 16 := by
    have := toUintptr_not_pow w 4
    simpa using this
  refine ⟨by rw [e, ceil_div_sixteen], ?_, ?_, ?_, hm, ?_⟩
  · exact ⟨_, e⟩
  · omega
  · rintro m ⟨c, rfl⟩ hm
    omega
  · intro h0
    subst h0
    omega

/-- Witness of C2 on a 32-bit word at base address `0x1003`. -/
theorem C2_array3_least_multiple_witness :
    0x1003 + 15 < 2 ^ 32 ∧
    array3 32 0x1003 = 16 * ⌈((0x1003 : Nat) : ℚ) / 16⌉₊ ∧
    16 ∣ array3 32 0x1003 ∧
    0x1003 ≤ array3 32 0x1003 ∧
    (∀ m, 16 ∣ m → 0x1003 ≤ m → array3 32 0x1003 ≤ m) ∧
    toUintptr 32 (~~~ (15 : Int)) = 2 ^ 32 - 16 ∧
    array3 32 0x1003 = 0x1010 ∧ array3 32 0x1003 - 0x1003 = 13 :=
  have t := C2_array3_least_multiple 32 0x1003 (by decide)
  ⟨by decide, t.1, t.2.1, t.2.2.1, t.2.2.2.1, t.2.2.2.2.1, t.2.2.2.2.2 rfl⟩

/-- C3: when the 31-byte block at `rawBase` lies inside the address space,
the 16 bytes from `array3` lie inside the block, and so does each of the four
`float` stores `array3[0..3]` that `main` performs. -/
theorem C3_array3_region_inside_block (w rawBase : Nat) (h : rawBase + rawBlockSize ≤ 2 ^ w) :
    rawBase ≤ array3 w rawBase ∧
    array3 w rawBase + 16 ≤ rawBase + 31 ∧
    (∀ i, i < 4 → rawBase ≤ floatElem (array3 w rawBase) i ∧
      floatElem (array3 w rawBase) i + sizeofFloat ≤ rawBase + rawBlockSize) ∧
    (∀ a, Event.storeFloat a ∈ manualSection w rawBase →
      rawBase ≤ a ∧ a + sizeofFloat ≤ rawBase + rawBlockSize) := by
  simp only [rawBlockSize, sizeofFloat] at h ⊢
  have e := array3_of_no_wrap w rawBase (by omega)
  have h1 : rawBase ≤ array3 w rawBase := by omega
  have h2 : array3 w rawBase + 16 ≤ rawBase + 31 := by omega
  refine ⟨h1, h2, ?_, ?_⟩
  · intro i hi
    unfold floatElem sizeofFloat
    omega
  · intro a ha
    simp only [manualSection, storeFour, floatElem, sizeofFloat, List.mem_cons, Event.storeFloat.injEq,
      List.mem_singleton, reduceCtorEq, false_or, List.mem_nil_iff, or_false] at ha
    omega

/-- Witness of C3 on a 32-bit word at base address `0x1003`. -/
theorem C3_array3_region_inside_block_witness :
    0x1003 ≤ array3 32 0x1003 ∧
    array3 32 0x1003 + 16 ≤ 0x1003 + 31 ∧
    (∀ i, i < 4 → 0x1003 ≤ floatElem (array3 32 0x1003) i ∧
      floatElem (array3 32 0x1003) i + sizeofFloat ≤ 0x1003 + rawBlockSize) ∧
    (∀ a, Event.storeFloat a ∈ manualSection 32 0x1003 →
      0x1003 ≤ a ∧ a + sizeofFloat ≤ 0x1003 + rawBlockSize) :=
  C3_array3_region_inside_block 32 0x1003 (by decide)

/-- C4: for every base address `rawBase` of the word, the slack
`array3 - rawBase` is below 16, whether the difference is taken in
`uintptr_t`, in the integers or in the naturals. -/
theorem C4_slack_lt_16 (w rawBase : Nat) (h : rawBase < 2 ^ w) :
    subUintptr w (array3 w rawBase) rawBase < 16 ∧
    (array3 w rawBase : Int) - (rawBase : Int) < 16 ∧
    array3 w rawBase - rawBase < 16 := by
  by_cases hwrap : rawBase + 15 < 2 ^ w
  · have e := array3_of_no_wrap w rawBase hwrap
    have hs : subUintptr w (array3 w rawBase) rawBase = array3 w rawBase - rawBase := by
      unfold subUintptr
      rw [Nat.mod_eq_of_lt h]
      have : array3 w rawBase + (2 ^ w - rawBase) = (array3 w rawBase - rawBase) + 2 ^ w := by
        omega
      rw [this, Nat.add_mod_right, Nat.mod_eq_of_lt (by omega)]
    rw [hs]
    omega
  · have e : array3 w rawBase = 0 := by
      by_cases hw : 4 ≤ w
      · exact array3_of_wrap w rawBase hw h (by omega)
      · exact array3_small_width w rawBase (by omega)
    have hs : subUintptr w (array3 w rawBase) rawBase < 16 := by
      unfold subUintptr
      rw [e, Nat.mod_eq_of_lt h, Nat.zero_add]
      by_cases h0 : rawBase = 0
      · subst h0
        simp
      · rw [Nat.mod_eq_of_lt (by omega)]
        omega
    refine ⟨hs, ?_, ?_⟩ <;> rw [e] <;> omega

/-- Witness of C4 on a 32-bit word at base address `0x1003`. -/
theorem C4_slack_lt_16_witness :
    subUintptr 32 (array3 32 0x1003) 0x1003 < 16 ∧
    (array3 32 0x1003 : Int) - ((0x1003 : Nat) : Int) < 16 ∧
    array3 32 0x1003 - 0x1003 < 16 :=
  C4_slack_lt_16 32 0x1003 (by decide)

theorem array3_of_aligned (w r : Nat) (h : r < 2 ^ w) (h16 : r % 16 = 0) : array3 w r = r := by
  by_cases hw : 4 ≤ w
  · obtain ⟨j, hj, _⟩ := sixteen_mul_of_four_le w hw
    rw [array3_of_no_wrap w r (by omega)]
    omega
  · have hle : 2 ^ w ≤ 2 ^ 3 := Nat.pow_le_pow_right (by decide) (by omega)
    rw [array3_small_width w r (by omega)]
    omega

/-- C5: a base address that is already a multiple of 16 is left unchanged
(slack 0), and the rounding is idempotent on every base address. -/
theorem C5_aligned_fixed_and_idempotent (w rawBase : Nat) (h : rawBase < 2 ^ w) :
    (rawBase % 16 = 0 → array3 w rawBase = rawBase ∧
      subUintptr w (array3 w rawBase) rawBase = 0) ∧
    array3 w (array3 w rawBase) = array3 w rawBase := by
  constructor
  · intro h16
    have e := array3_of_aligned w rawBase h h16
    refine ⟨e, ?_⟩
    unfold subUintptr
    rw [e, Nat.mod_eq_of_lt h]
    have : rawBase + (2 ^ w - rawBase) = 2 ^ w := by omega
    rw [this, Nat.mod_self]
  · rcases array3_lt w rawBase with hlt | h0
    · exact array3_of_aligned w _ hlt (array3_mod_sixteen w rawBase)
    · rw [h0]
      exact array3_of_aligned w 0 (Nat.two_pow_pos w) (by decide)

/-- Witness of C5 on a 32-bit word at the aligned base address `0x1000`. -/
theorem C5_aligned_fixed_and_idempotent_witness :
    0x1000 < 2 ^ 32 ∧ 0x1000 % 16 = 0 ∧
    array3 32 0x1000 = 0x1000 ∧ subUintptr 32 (array3 32 0x1000) 0x1000 = 0 ∧
    array3 32 (array3 32 0x1000) = array3 32 0x1000 :=
  have t := C5_aligned_fixed_and_idempotent 32 0x1000 (by decide)
  ⟨by decide, by decide, (t.1 (by decide)).1, (t.1 (by decide)).2, t.2⟩

/-- C10: the addition `tempPointer + 15` is taken modulo `2 ^ w`.  For a base
address above `2 ^ w - 16` the sum wraps, `array3` is 0, below `rawBase` and
outside the block of `rawBlockSize` bytes at `rawBase`; and
`array3 ≥ rawBase` holds exactly when `rawBase ≤ 2 ^ w - 16`. -/
theorem C10_wraparound (w rawBase : Nat) (hw : 4 ≤ w) (h : rawBase < 2 ^ w) :
    (2 ^ w - 16 < rawBase →
      addUintptr w rawBase (toUintptr w 15) = rawBase + 15 - 2 ^ w ∧
      addUintptr w rawBase (toUintptr w 15) < rawBase + 15 ∧
      array3 w rawBase = 0 ∧
      array3 w rawBase < rawBase ∧
      ¬ (rawBase ≤ array3 w rawBase ∧ array3 w rawBase < rawBase + rawBlockSize)) ∧
    (rawBase ≤ array3 w rawBase ↔ rawBase ≤ 2 ^ w - 16) := by
  obtain ⟨j, hj, hjpos⟩ := sixteen_mul_of_four_le w hw
  have h15 : toUintptr w 15 = 15 := by
    have := toUintptr_natCast w 15
    simp only [Nat.cast_ofNat] at this
    rw [this, Nat.mod_eq_of_lt (by omega)]
  have hwrap : 2 ^ w - 16 < rawBase → array3 w rawBase = 0 := fun hgt =>
    array3_of_wrap w rawBase hw h (by omega)
  constructor
  · intro hgt
    have e := hwrap hgt
    have hadd : addUintptr w rawBase (toUintptr w 15) = rawBase + 15 - 2 ^ w := by
      unfold addUintptr
      rw [h15, Nat.mod_eq_sub_mod (by omega), Nat.mod_eq_of_lt (by omega)]
    refine ⟨hadd, ?_, e, ?_, ?_⟩
    · rw [hadd]; omega
    · rw [e]; omega
    · rw [e]; omega
  · constructor
    · intro hle
      by_contra hgt
      have e := hwrap (by omega)
      omega
    · intro hle
      have e := array3_of_no_wrap w rawBase (by omega)
      omega

/-- Witness of C10 on a 32-bit word at the base address `2 ^ 32 - 3`. -/
theorem C10_wraparound_witness :
    4 ≤ 32 ∧ 2 ^ 32 - 3 < 2 ^ 32 ∧ 2 ^ 32 - 16 < 2 ^ 32 - 3 ∧
    array3 32 (2 ^ 32 - 3) = 0 ∧ array3 32 (2 ^ 32 - 3) < 2 ^ 32 - 3 ∧
    (2 ^ 32 - 3 ≤ array3 32 (2 ^ 32 - 3) ↔ 2 ^ 32 - 3 ≤ 2 ^ 32 - 16) :=
  have t := C10_wraparound 32 (2 ^ 32 - 3) (by decide) (by decide)
  ⟨by decide, by decide, by decide, (t.1 (by decide)).2.2.1, (t.1 (by decide)).2.2.2.1, t.2⟩

/-! ## The claims about the general technique -/

/-- C6: for every alignment `a` in {1, 2, 4, 8, 16, 32, 64, 128}, every size
`s` in {0, 1, 4, 17, 1024} and every base address the allocator returns for
the block of `s + a - 1` bytes, `construct` succeeds and the address it
exposes is an exact multiple of `a`; `array3` is the instance `a = 16`. -/
theorem C6_construct_aligned (w a s rawBase : Nat) (rawAllocate : Nat → Option Nat)
    (ha : a ∈ [1, 2, 4, 8, 16, 32, 64, 128]) (_hs : s ∈ [0, 1, 4, 17, 1024])
    (hr : rawAllocate (s + a - 1) = some rawBase) :
    (∃ b, construct w rawAllocate s a = Except.ok b ∧ b.rawBase = rawBase ∧
      b.requestedSize = s ∧ b.alignment = a ∧ access b % a = 0) ∧
    array3 w rawBase = alignedPointer w 16 rawBase := by
  refine ⟨?_, array3_eq_alignedPointer w rawBase⟩
  have hk : ∃ k, a = 2 ^ k := by
    simp only [List.mem_cons, List.mem_singleton, List.mem_nil_iff, or_false] at ha
    rcases ha with h | h | h | h | h | h | h | h
    · exact ⟨0, h⟩
    · exact ⟨1, h⟩
    · exact ⟨2, h⟩
    · exact ⟨3, h⟩
    · exact ⟨4, h⟩
    · exact ⟨5, h⟩
    · exact ⟨6, h⟩
    · exact ⟨7, h⟩
  obtain ⟨k, rfl⟩ := hk
  refine ⟨_, construct_of_some w s (2 ^ k) rawBase rawAllocate hr, rfl, rfl, rfl, ?_⟩
  show alignedPointer w (2 ^ k) rawBase % 2 ^ k = 0
  rw [alignedPointer_two_pow]
  exact Nat.mul_mod_right _ _

/-- Witness of C6: alignment 16, size 4, a 64-bit word and an allocator that
answers every request with the address `0x1003`. -/
theorem C6_construct_aligned_witness :
    (∃ b, construct 64 (fun _ => some 0x1003) 4 16 = Except.ok b ∧ b.rawBase = 0x1003 ∧
      b.requestedSize = 4 ∧ b.alignment = 16 ∧ access b % 16 = 0) ∧
    array3 64 0x1003 = alignedPointer 64 16 0x1003 :=
  C6_construct_aligned 64 16 4 0x1003 (fun _ => some 0x1003) (by decide) (by decide) rfl

/-- C9: for each of the alignments 3, 6 and 10, which are not powers of two,
there is a base address at which the masking formula yields an address that
is not a multiple of the alignment, and `construct` still reports success;
for alignment 3 and base address 1 the formula yields 1. -/
theorem C9_non_power_of_two_misaligned (w : Nat) (hw : 4 ≤ w) :
    (∀ a, a ∈ [3, 6, 10] → ∃ rawBase, rawBase < 2 ^ w ∧
      ¬ (a ∣ alignedPointer w a rawBase) ∧
      ∀ (rawAllocate : Nat → Option Nat) (s : Nat), rawAllocate (s + a - 1) = some rawBase →
        ∃ b, construct w rawAllocate s a = Except.ok b ∧ ¬ (a ∣ access b)) ∧
    alignedPointer w 3 1 = 1 := by
  have hp : 2 ^ 4 ≤ 2 ^ w := Nat.pow_le_pow_right (by decide) hw
  have e3 : alignedPointer w 3 1 = 1 := by
    rw [alignedPointer_of_lt w 3 1 (by decide) (by omega)]
    decide
  have e6 : alignedPointer w 6 1 = 2 := by
    rw [alignedPointer_of_lt w 6 1 (by decide) (by omega)]
    decide
  have e10 : alignedPointer w 10 1 = 2 := by
    rw [alignedPointer_of_lt w 10 1 (by decide) (by omega)]
    decide
  refine ⟨?_, e3⟩
  intro a ha
  have hbad : ¬ (a ∣ alignedPointer w a 1) := by
    simp only [List.mem_cons, List.mem_singleton, List.mem_nil_iff, or_false] at ha
    rcases ha with rfl | rfl | rfl
    · rw [e3]; decide
    · rw [e6]; decide
    · rw [e10]; decide
  refine ⟨1, by omega, hbad, ?_⟩
  intro rawAllocate s hr
  exact ⟨_, construct_of_some w s a 1 rawAllocate hr, hbad⟩

/-- Witness of C9 on a 64-bit word. -/
theorem C9_non_power_of_two_misaligned_witness :
    4 ≤ 64 ∧
    (∀ a, a ∈ [3, 6, 10] → ∃ rawBase, rawBase < 2 ^ 64 ∧
      ¬ (a ∣ alignedPointer 64 a rawBase) ∧
      ∀ (rawAllocate : Nat → Option Nat) (s : Nat), rawAllocate (s + a - 1) = some rawBase →
        ∃ b, construct 64 rawAllocate s a = Except.ok b ∧ ¬ (a ∣ access b)) ∧
    alignedPointer 64 3 1 = 1 :=
  ⟨by decide, C9_non_power_of_two_misaligned 64 (by decide)⟩

/-! ## The claims about the run of `main` -/

theorem array3_null (w : Nat) : array3 w 0 = 0 := by
  have h : (0 + 15) % 2 ^ w ≤ 0 + 15 := Nat.mod_le _ _
  rw [array3_eq]
  omega

theorem mem_of_mem_execute (ev : Event) :
    ∀ l : List Event, ev ∈ (execute l).1 → ev ∈ l := by
  intro l
  induction l with
  | nil => intro h; simp [execute] at h
  | cons x rest ih =>
    intro h
    unfold execute at h
    by_cases hf : faults x = true
    · rw [if_pos hf] at h
      simp only [List.mem_singleton] at h
      rw [h]
      exact List.mem_cons_self _ _
    · rw [if_neg hf] at h
      rcases List.mem_cons.mp h with h1 | h1
      · rw [h1]
        exact List.mem_cons_self _ _
      · exact List.mem_cons_of_mem _ (ih h1)

theorem freeCount_eq_zero :
    ∀ t : List Event, (∀ a, Event.free a ∉ t ∧ Event.alignedFree a ∉ t) → freeCount t = 0 := by
  intro t
  induction t with
  | nil => intro _; rfl
  | cons x rest ih =>
    intro h
    have hrest : ∀ a, Event.free a ∉ rest ∧ Event.alignedFree a ∉ rest := fun a =>
      ⟨fun hm => (h a).1 (List.mem_cons_of_mem _ hm),
       fun hm => (h a).2 (List.mem_cons_of_mem _ hm)⟩
    cases x with
    | alignedFree a => exact absurd (List.mem_cons_self _ _) (h a).2
    | free a => exact absurd (List.mem_cons_self _ _) (h a).1
    | alignedMalloc _ _ _ => simpa [freeCount] using ih hrest
    | malloc _ _ => simpa [freeCount] using ih hrest
    | storeFloat _ => simpa [freeCount] using ih hrest
    | loadPs _ => simpa [freeCount] using ih hrest

theorem no_free_in_mainStatements (e : Env) (a : Nat) :
    Event.free a ∉ mainStatements e ∧ Event.alignedFree a ∉ mainStatements e := by
  simp [mainStatements, manualSection, storeFour]

/-- C7, as stated, fails: when `malloc` returns the null address on a 64-bit
word, `main` reports no failure, derives `array3 = 0` from the null base and
issues the store `array3[0] = 0` through it; the run ends on that store. -/
theorem C7_null_base_counterexample :
    ¬ (∀ a, Event.storeFloat a ∉ manualRun 64 0) ∧
    array3 64 0 = 0 ∧
    manualRun 64 0 = [Event.malloc 31 0, Event.storeFloat 0] ∧
    Event.storeFloat (array3 nullEnv.w nullEnv.tempPointer) ∈ mainTrace nullEnv ∧
    mainResult nullEnv = none := by
  refine ⟨?_, by decide, by decide, by decide, by decide⟩
  intro h
  exact h 0 (by decide)

/-- C7 amended: `main` does not test the result of `malloc`.  When it is the
null address, `array3` is computed from it as 0 and the store `array3[0] = 0`
is issued through it at the address 0, directly after the call. -/
theorem C7_null_base_unchecked (w : Nat) :
    array3 w 0 = 0 ∧
    [Event.malloc 31 0, Event.storeFloat 0] <+: manualRun w 0 ∧
    Event.storeFloat (array3 w 0) ∈ manualRun w 0 := by
  have e := array3_null w
  have hrun : manualRun w 0 = [Event.malloc 31 0, Event.storeFloat 0] := by
    simp [manualRun, manualSection, storeFour, floatElem, sizeofFloat, rawBlockSize, e,
      execute, faults]
  refine ⟨e, ?_, ?_⟩
  · rw [hrun]
  · rw [hrun, e]
    decide

/-- C8, as stated, fails: on a run in which the three allocations succeed
and `main` returns, no block is released and the counts of allocations and
frees are 3 and 0. -/
theorem C8_release_counterexample :
    ¬ (ReleasedExactlyOnce (mainTrace leakEnv) ∧
        allocCount (mainTrace leakEnv) = freeCount (mainTrace leakEnv)) ∧
    allocCount (mainTrace leakEnv) = 3 ∧ freeCount (mainTrace leakEnv) = 0 ∧
    (mainTrace leakEnv).count (Event.free leakEnv.tempPointer) = 0 ∧
    mainResult leakEnv = some 1 := by
  refine ⟨?_, by decide, by decide, by decide, by decide⟩
  rintro ⟨-, h⟩
  revert h
  decide

/-- C8 amended: `main` contains no deallocation call.  On every run the
trace has no `free` and no `_aligned_free` event, so the number of frees is 0
and neither `tempPointer` nor `array3` is ever passed to a deallocation
routine. -/
theorem C8_no_release (e : Env) :
    (∀ a, Event.free a ∉ mainTrace e ∧ Event.alignedFree a ∉ mainTrace e) ∧
    freeCount (mainTrace e) = 0 ∧
    (mainTrace e).count (Event.free e.tempPointer) = 0 ∧
    (mainTrace e).count (Event.free (array3 e.w e.tempPointer)) = 0 := by
  have hno : ∀ a, Event.free a ∉ mainTrace e ∧ Event.alignedFree a ∉ mainTrace e := fun a =>
    ⟨fun hm => (no_free_in_mainStatements e a).1 (mem_of_mem_execute _ _ hm),
     fun hm => (no_free_in_mainStatements e a).2 (mem_of_mem_execute _ _ hm)⟩
  exact ⟨hno, freeCount_eq_zero _ hno, List.count_eq_zero.mpr (hno _).1,
    List.count_eq_zero.mpr (hno _).1⟩

end MemoryAlignment
